import Mathlib

/-!
Verification of the gostgrator schema-migration engine.

This file shallowly embeds the Go sources of the repository:
the migration loader (`migrations.go`), the engine orchestration
(`pkg/gostgrator/gostgrator.go`), the dialect client base
(`pkg/gostgrator/client.go`) and the scaffolder (`newmigration.go`).
Pure Go functions become Lean functions; the stateful database client
becomes a record of operations threading an abstract state, and the
filesystem is passed in as an association list of (path, content) pairs.
Machine integers are modelled as `Int` (the version numbers involved are
far below overflow range) and fallible Go calls return `Except String`.
-/

deriving instance DecidableEq for Except

namespace Gostgrator

/-- Decimal digits to a number; `none` if the list is empty or holds a
non-digit.  Helper for the model of Go `strconv.Atoi`. -/
def digitsVal (l : List Char) : Option Nat :=
  match l with
  | [] => none
  | _ => go l 0
where
  go : List Char → Nat → Option Nat
    | [], acc => some acc
    | c :: rest, acc => if c.isDigit then go rest (acc * 10 + (c.toNat - 48)) else none

/-- Model of Go `strconv.Atoi`: an optional sign followed by decimal digits
(overflow is ignored; the versions in scope are tiny). -/
def atoi (s : String) : Option Int :=
  match s.data with
  | '+' :: rest => (digitsVal rest).map (fun n => (n : Int))
  | '-' :: rest => (digitsVal rest).map (fun n => -(n : Int))
  | l => (digitsVal l).map (fun n => (n : Int))

/-- Model of Go `strings.Split` restricted to a one-character separator,
which is all the code uses (`"."` and `"/"`). -/
def splitOnChar (sep : Char) : List Char → List (List Char)
  | [] => [[]]
  | c :: rest =>
    match splitOnChar sep rest with
    | h :: t => if c = sep then [] :: h :: t else (c :: h) :: t
    | [] => if c = sep then [[], []] else [[c]]

/-- `strings.Split` on strings, via `splitOnChar`. -/
def splitStr (sep : Char) (s : String) : List String :=
  (splitOnChar sep s.data).map String.mk

/-- Model of Go `strings.Join`. -/
def joinWith (sep : String) : List String → String
  | [] => ""
  | [x] => x
  | x :: xs => x ++ sep ++ joinWith sep xs

/-- Model of Go `strings.ToLower` (ASCII range). -/
def lowerStr (s : String) : String := String.mk (s.data.map Char.toLower)

/-- Model of Go `strings.TrimSpace` (ASCII whitespace). -/
def trimSpace (s : String) : String :=
  String.mk (((s.data.dropWhile Char.isWhitespace).reverse.dropWhile
    Char.isWhitespace).reverse)

/-- Model of Go `filepath.Base`: the last slash-separated component. -/
def baseOf (s : String) : String := (splitStr '/' s).getLastD s

/-- Suffix starting at the last dot of the list, empty when there is no dot.
Helper for the model of Go `filepath.Ext`. -/
def lastDotSuffix : List Char → List Char
  | [] => []
  | c :: rest =>
    let t := lastDotSuffix rest
    if t.isEmpty then (if c = '.' then c :: rest else []) else t

/-- Model of Go `filepath.Ext`: the suffix of the final path element starting
at its last dot. -/
def extOf (s : String) : String := String.mk (lastDotSuffix (baseOf s).data)

/-- Model of Go `strings.TrimSuffix`. -/
def trimSuffix (s suf : String) : String :=
  if suf.data.isSuffixOf s.data then
    String.mk (s.data.take (s.data.length - suf.data.length))
  else s

/-- The `Migration` record of `migrations.go` (lines 48-63). -/
structure Migration where
  Version : Int
  Action : String
  Filename : String
  Name : String
  Md5 : String
deriving DecidableEq, Repr

/-- The `Config` struct of `gostgrator.go` (lines 13-34). -/
structure Config where
  Driver : String
  Database : String
  SchemaTable : String
  MigrationPattern : String
  Newline : String
  CurrentSchema : String
  ValidateChecksums : Bool
deriving DecidableEq, Repr

/-- `DefaultConfig` of `gostgrator.go` (lines 37-40). -/
def DefaultConfig : Config :=
  { Driver := "", Database := "", SchemaTable := "schemaversion", MigrationPattern := ""
    Newline := "", CurrentSchema := "", ValidateChecksums := true }

/-- The configuration merging performed by `NewGostgrator`
(`gostgrator.go` lines 53-69). -/
def mergeConfig (cfg : Config) : Config :=
  let cfg1 := if cfg.SchemaTable = "" then
    { cfg with SchemaTable := DefaultConfig.SchemaTable } else cfg
  if !cfg1.ValidateChecksums then
    { cfg1 with ValidateChecksums := DefaultConfig.ValidateChecksums } else cfg1

/-- Replacement semantics of the Go regexp `\r\n|\r|\n` with a fixed
replacement `t` (leftmost match first, so `\r\n` wins over `\r`).
Used by `convertLineEnding` (`migrations.go` lines 88-103). -/
def normTo (t : List Char) : List Char → List Char
  | [] => []
  | '\r' :: '\n' :: rest => t ++ normTo t rest
  | '\r' :: rest => t ++ normTo t rest
  | '\n' :: rest => t ++ normTo t rest
  | c :: rest => c :: normTo t rest

/-- The target of the `switch lineEnding` in `convertLineEnding`. -/
def lineEndingTarget : String → Option (List Char)
  | "LF" => some ['\n']
  | "CR" => some ['\r']
  | "CRLF" => some ['\r', '\n']
  | _ => none

/-- `convertLineEnding` (`migrations.go` lines 88-103). -/
def convertLineEnding (content lineEnding : String) : Except String String :=
  match lineEndingTarget lineEnding with
  | none => .error "newline must be one of: LF, CR, CRLF"
  | some t => .ok (String.mk (normTo t content.data))

/-- `checksum` (`migrations.go` lines 105-116).  `md5Hex` abstracts the
`crypto/md5` plus `encoding/hex` digest of the Go standard library, which is
outside this repository. -/
def checksum (md5Hex : String → String) (content lineEnding : String) : Except String String :=
  if lineEnding = "" then .ok (md5Hex content)
  else
    match convertLineEnding content lineEnding with
    | .error e => .error e
    | .ok c => .ok (md5Hex c)

/-- Content after the (possibly absent) line-ending normalization; the value
hashed by `checksum` when the newline mode is valid or unset. -/
def normalizeContent (content lineEnding : String) : String :=
  match lineEndingTarget lineEnding with
  | none => content
  | some t => String.mk (normTo t content.data)

/-- The filename-parsing steps of `getMigrations` (`migrations.go` lines
135-155): extension check, base-name split on dots, integer first segment.
Returns (version, action, name), or `none` when the loop skips the file. -/
def parseMigrationFile (file : String) : Option (Int × String × String) :=
  if extOf file ≠ ".sql" then none
  else
    let base := baseOf file
    let baseNoExt := trimSuffix base (extOf base)
    match splitStr '.' baseNoExt with
    | p0 :: p1 :: rest =>
      match atoi p0 with
      | none => none
      | some v => some (v, p1, joinWith "." rest)
    | _ => none

/-- The duplicate (version, action) error of `getMigrations`
(`migrations.go` line 169). -/
def dupErr (v : Int) (a : String) : String :=
  s!"duplicate migration for version {v} and action {a}"

/-- The loader loop of `getMigrations` (`migrations.go` lines 128-175) over
the glob result, which is supplied as (path, content) pairs; `seen` is the
`migrationKeys` set.  The Go key string `"%d:%s"` determines the
(version, action) pair uniquely, so the set is kept as pairs. -/
def getMigrationsAux (md5Hex : String → String) (newline : String)
    (seen : List (Int × String)) : List (String × String) → Except String (List Migration)
  | [] => .ok []
  | (file, content) :: rest =>
    match parseMigrationFile file with
    | none => getMigrationsAux md5Hex newline seen rest
    | some (v, a, nm) =>
      match checksum md5Hex content newline with
      | .error e => .error e
      | .ok h =>
        if (v, a) ∈ seen then .error (dupErr v a)
        else
          match getMigrationsAux md5Hex newline ((v, a) :: seen) rest with
          | .error e => .error e
          | .ok migs =>
            .ok ({ Version := v, Action := a, Filename := file, Name := nm, Md5 := h } :: migs)

/-- `getMigrations` (`migrations.go` lines 128-175). -/
def getMigrations (md5Hex : String → String) (cfg : Config)
    (files : List (String × String)) : Except String (List Migration) :=
  getMigrationsAux md5Hex cfg.Newline [] files

/-- The (version, action) key a file contributes to the duplicate check,
or `none` when the loader skips it. -/
def fileKey (fc : String × String) : Option (Int × String) :=
  (parseMigrationFile fc.1).map (fun t => (t.1, t.2.1))

/-- The migration a single loaded file becomes, mirroring one successful
iteration of the loader loop. -/
def migOfEntry (md5Hex : String → String) (cfg : Config) (fc : String × String) :
    Option Migration :=
  (parseMigrationFile fc.1).map (fun t =>
    { Version := t.1, Action := t.2.1, Filename := fc.1, Name := t.2.2
      Md5 := md5Hex (normalizeContent fc.2 cfg.Newline) })

/-- `sortMigrationsAsc` (`migrations.go` lines 75-79). -/
def sortMigrationsAsc (migs : List Migration) : List Migration :=
  migs.mergeSort (fun a b => decide (a.Version ≤ b.Version))

/-- `sortMigrationsDesc` (`migrations.go` lines 82-86). -/
def sortMigrationsDesc (migs : List Migration) : List Migration :=
  migs.mergeSort (fun a b => decide (b.Version ≤ a.Version))

/-- `GetRunnableMigrations` (`gostgrator.go` lines 180-205).  The Go function
also returns an `error` value that is `nil` on every path, so the embedding
returns the list alone. -/
def getRunnableMigrations (migs : List Migration) (databaseVersion targetVersion : Int) :
    List Migration :=
  if targetVersion > databaseVersion then
    sortMigrationsAsc (migs.filter (fun m =>
      m.Action == "do" && decide (m.Version > databaseVersion) &&
        decide (m.Version ≤ targetVersion)))
  else if targetVersion < databaseVersion then
    sortMigrationsDesc (migs.filter (fun m =>
      m.Action == "undo" && decide (m.Version ≤ databaseVersion) &&
        decide (m.Version > targetVersion)))
  else []

/-- One scanned row of a `sql.Rows` result set: the outcomes of the two
`Scan` shapes the engine uses (`&int` and `&sql.NullString`). -/
structure Row where
  scanInt : Except String Int
  scanNullString : Except String (Option String)
deriving DecidableEq, Repr

/-- The dialect client interface (`client.go` lines 25-33) over an abstract
database state `σ`.  Each operation returns its Go (value, error) pair
together with the successor state. -/
structure Client (σ : Type) where
  ensureTable : σ → Except String Unit × σ
  hasVersionTable : σ → Except String Bool × σ
  runQuery : String → σ → Except String (List Row) × σ
  runSqlScript : String → σ → Except String Unit × σ
  getDatabaseVersionSql : String
  getMd5Sql : Migration → String
  persistActionSql : Migration → String

/-- `GetDatabaseVersion` (`gostgrator.go` lines 93-114). -/
def getDatabaseVersion {σ : Type} (c : Client σ) (s : σ) : Except String Int × σ :=
  match c.hasVersionTable s with
  | (.error e, s1) => (.error e, s1)
  | (.ok false, s1) => (.ok 0, s1)
  | (.ok true, s1) =>
    match c.runQuery c.getDatabaseVersionSql s1 with
    | (.error e, s2) => (.error e, s2)
    | (.ok rows, s2) =>
      match rows with
      | [] => (.ok 0, s2)
      | r :: _ =>
        match r.scanInt with
        | .error e => (.error e, s2)
        | .ok v => (.ok v, s2)

/-- The per-migration loop of `ValidateMigrations` (`gostgrator.go` lines
137-156), after the migration list has been reloaded. -/
def validateLoop {σ : Type} (c : Client σ) (dbv : Int) :
    List Migration → σ → Except String Unit × σ
  | [], s => (.ok (), s)
  | m :: rest, s =>
    if m.Action == "do" && decide (m.Version > 0) && decide (m.Version ≤ dbv) then
      match c.runQuery (c.getMd5Sql m) s with
      | (.error e, s1) => (.error e, s1)
      | (.ok rows, s1) =>
        match rows with
        | [] => validateLoop c dbv rest s1
        | r :: _ =>
          match r.scanNullString with
          | .error e => (.error e, s1)
          | .ok none => validateLoop c dbv rest s1
          | .ok (some dbMd5) =>
            if m.Md5 ≠ "" ∧ dbMd5 ≠ m.Md5 then
              (.error (s!"MD5 checksum failed for migration [{m.Version}]"), s1)
            else validateLoop c dbv rest s1
    else validateLoop c dbv rest s

/-- The checksum-mismatch error text of `ValidateMigrations`
(`gostgrator.go` line 153). -/
def md5Err (v : Int) : String := s!"MD5 checksum failed for migration [{v}]"

/-- `ValidateMigrations` (`gostgrator.go` lines 133-158): reloads the
migrations from disk, then runs the checking loop. -/
def validateMigrations {σ : Type} (c : Client σ) (md5Hex : String → String) (cfg : Config)
    (files : List (String × String)) (dbv : Int) (s : σ) : Except String Unit × σ :=
  match getMigrations md5Hex cfg files with
  | .error e => (.error e, s)
  | .ok migs => validateLoop c dbv migs s

/-- `GetSQL` (`migrations.go` lines 66-72): read the migration file from the
modelled filesystem. -/
def getSQL (files : List (String × String)) (m : Migration) : Except String String :=
  match files.lookup m.Filename with
  | some content => .ok content
  | none => .error (s!"open {m.Filename}: no such file or directory")

/-- `RunMigrations` (`gostgrator.go` lines 161-178): for each migration read
its SQL, execute the script, then execute the persist query; stop at the
first failure, returning the migrations applied so far and the error. -/
def runMigrations {σ : Type} (c : Client σ) (files : List (String × String)) :
    List Migration → σ → List Migration × σ × Option String
  | [], s => ([], s, none)
  | m :: rest, s =>
    match getSQL files m with
    | .error e => ([], s, some e)
    | .ok script =>
      match c.runSqlScript script s with
      | (.error e, s1) => ([], s1, some e)
      | (.ok _, s1) =>
        match c.runQuery (c.persistActionSql m) s1 with
        | (.error e, s2) => ([], s2, some e)
        | (.ok _, s2) =>
          match runMigrations c files rest s2 with
          | (applied, s3, err) => (m :: applied, s3, err)

/-- The three steps of one `RunMigrations` iteration as a single transition;
the state reached when every step succeeds. -/
def stepMigration {σ : Type} (c : Client σ) (files : List (String × String))
    (m : Migration) (s : σ) : Except String σ :=
  match getSQL files m with
  | .error e => .error e
  | .ok script =>
    match c.runSqlScript script s with
    | (.error e, _) => .error e
    | (.ok _, s1) =>
      match c.runQuery (c.persistActionSql m) s1 with
      | (.error e, _) => .error e
      | (.ok _, s2) => .ok s2

/-- The longest fully-successful run through the list: the migrations whose
three steps all succeed before the first failure, with the state reached. -/
def okRun {σ : Type} (c : Client σ) (files : List (String × String)) :
    List Migration → σ → List Migration × σ
  | [], s => ([], s)
  | m :: rest, s =>
    match stepMigration c files m s with
    | .error _ => ([], s)
    | .ok s1 =>
      match okRun c files rest s1 with
      | (p, s2) => (m :: p, s2)

/-- `maxVersionOf`: the max-version fold of `GetMaxVersion`
(`gostgrator.go` lines 123-129). -/
def maxVersionOf (migs : List Migration) : Int :=
  migs.foldl (fun acc m => if m.Version > acc then m.Version else acc) 0

/-- `GetMaxVersion` (`gostgrator.go` lines 117-130): reloads from disk when
no migrations are cached. -/
def getMaxVersion (md5Hex : String → String) (cfg : Config)
    (files : List (String × String)) (migs : List Migration) : Except String Int :=
  if migs.isEmpty then
    match getMigrations md5Hex cfg files with
    | .error e => .error e
    | .ok ms => .ok (maxVersionOf ms)
  else .ok (maxVersionOf migs)

/-- The invalid-target error of `Migrate` (`gostgrator.go` line 227). -/
def invalidTargetErr (cleaned : String) : String := s!"invalid target version: {cleaned}"

/-- `Migrate` (`gostgrator.go` lines 209-248): ensure the state table, reload
migrations, resolve the target spec, read the database version, optionally
validate checksums, then run the runnable list.  Returns the Go
(applied, error) pair with the final client state. -/
def migrate {σ : Type} (c : Client σ) (md5Hex : String → String) (cfg : Config)
    (files : List (String × String)) (target : String) (s : σ) :
    (List Migration × Option String) × σ :=
  match c.ensureTable s with
  | (.error e, s1) => (([], some e), s1)
  | (.ok _, s1) =>
    match getMigrations md5Hex cfg files with
    | .error e => (([], some e), s1)
    | .ok migs =>
      let cleaned := lowerStr (trimSpace target)
      match (if cleaned = "max" ∨ cleaned = "" then getMaxVersion md5Hex cfg files migs
             else
               match atoi cleaned with
               | none => Except.error (invalidTargetErr cleaned)
               | some v => Except.ok v) with
      | .error e => (([], some e), s1)
      | .ok targetVersion =>
        match getDatabaseVersion c s1 with
        | (.error e, s2) => (([], some e), s2)
        | (.ok dbVersion, s2) =>
          match (if cfg.ValidateChecksums ∧ targetVersion ≥ dbVersion then
                   validateMigrations c md5Hex cfg files dbVersion s2
                 else (Except.ok (), s2)) with
          | (.error e, s3) => (([], some e), s3)
          | (.ok _, s3) =>
            match runMigrations c files (getRunnableMigrations migs dbVersion targetVersion) s3 with
            | (applied, s4, err) => ((applied, err), s4)

/-- Client whose queries are answered purely by `fetch` and whose other
operations succeed without touching state; instantiates the interface for
engine-level statements. -/
def pureQueryClient (fetch : String → List Row) (md5SqlOf : Migration → String) :
    Client Unit :=
  { ensureTable := fun s => (.ok (), s)
    hasVersionTable := fun s => (.ok true, s)
    runQuery := fun q s => (.ok (fetch q), s)
    runSqlScript := fun _ s => (.ok (), s)
    getDatabaseVersionSql := "SELECT version"
    getMd5Sql := md5SqlOf
    persistActionSql := fun _ => "" }

/-- Client over a trace state that records the name of every database
operation performed, succeeding always; used to observe which database work
`migrate` performs. -/
def traceClient : Client (List String) :=
  { ensureTable := fun s => (.ok (), s ++ ["ensureTable"])
    hasVersionTable := fun s => (.ok true, s ++ ["hasVersionTable"])
    runQuery := fun q s => (.ok [], s ++ ["runQuery " ++ q])
    runSqlScript := fun _ s => (.ok (), s ++ ["runSqlScript"])
    getDatabaseVersionSql := "SELECT version"
    getMd5Sql := fun m => "SELECT md5 WHERE version = " ++ toString m.Version
    persistActionSql := fun m => "persist " ++ toString m.Version }

/-- The scan over the first row of the md5 query, as `ValidateMigrations`
performs it: no row at all yields a NULL checksum. -/
def rowsMd5 : List Row → Except String (Option String)
  | [] => .ok none
  | r :: _ => r.scanNullString

/-- The statements `EnsureTable` issues, as an inductive rather than SQL
text; constructors follow the strings built in `client.go` lines 171-205. -/
inductive Stmt where
  | createSchema (name : String)
  | createTable (colType : String)
  | insertZero
  | addName
  | addMd5
  | addRunAt
deriving DecidableEq, Repr

/-- `hasColumn` (`client.go` lines 142-149); `strings.EqualFold` is modelled
as lower-cased equality. -/
def hasColumn (columns : List String) (name : String) : Bool :=
  columns.any (fun col => lowerStr col == lowerStr name)

/-- The statement list `EnsureTable` (`client.go` lines 152-213) builds from
the introspected column names. -/
def ensureTableStmts (cfg : Config) (columns : List String) : List Stmt :=
  (if columns.isEmpty then
    (if lowerStr cfg.Driver = "pg" ∧ 1 < (splitStr '.' cfg.SchemaTable).length then
      [Stmt.createSchema ((splitStr '.' cfg.SchemaTable).headD "")]
    else []) ++
    [Stmt.createTable
      (if lowerStr cfg.Driver = "pg" then "BIGINT"
       else if lowerStr cfg.Driver = "sqlite3" then "INTEGER" else "BIGINT"),
     Stmt.insertZero]
  else []) ++
  (if hasColumn columns "name" then [] else [Stmt.addName]) ++
  (if hasColumn columns "md5" then [] else [Stmt.addMd5]) ++
  (if hasColumn columns "run_at" then [] else [Stmt.addRunAt])

/-- The state-table portion of the database: its column names and its rows
of version numbers. -/
structure VersionTable where
  cols : List String
  rows : List Int
deriving DecidableEq, Repr

/-- The modelled database state: created schemas and the optional state
table. -/
structure DbState where
  schemas : List String
  table : Option VersionTable
deriving DecidableEq, Repr

/-- Modelled from the spec: the effect on the database of each DDL/DML
statement `EnsureTable` issues (spec sections 4.2 and 6 describe the state
table and the additive schema repair); the SQL engines executing the
statements are external collaborators, not repository code. -/
def execStmt (s : DbState) : Stmt → DbState
  | .createSchema n => { s with schemas := s.schemas ++ [n] }
  | .createTable _ => { s with table := some { cols := ["version"], rows := [] } }
  | .insertZero =>
    match s.table with
    | some t => { s with table := some { t with rows := t.rows ++ [0] } }
    | none => s
  | .addName => addCol s "name"
  | .addMd5 => addCol s "md5"
  | .addRunAt => addCol s "run_at"
where
  addCol (s : DbState) (c : String) : DbState :=
    match s.table with
    | some t => { s with table := some { t with cols := t.cols ++ [c] } }
    | none => s

/-- Modelled from the spec: column introspection (`getColumnsSql`), which
returns no rows exactly when the state table does not exist (spec section
4.2, `StateTableExists`). -/
def introspectColumns (s : DbState) : List String :=
  match s.table with
  | some t => t.cols
  | none => []

/-- `EnsureTable` (`client.go` lines 152-213) over the modelled database:
introspect the columns, build the statement list, execute it in order. -/
def ensureTableRun (cfg : Config) (s : DbState) : DbState :=
  (ensureTableStmts cfg (introspectColumns s)).foldl execStmt s

/-- Lower-case ASCII letters and digits, the character class `[a-z0-9]` of
`kebabCase` (`newmigration.go` line 123). -/
def isLowerAlnum (c : Char) : Bool :=
  (97 ≤ c.toNat && c.toNat ≤ 122) || (48 ≤ c.toNat && c.toNat ≤ 57)

/-- Replacement of every maximal run of characters outside `[a-z0-9]` by a
single hyphen: the `ReplaceAllString` of `kebabCase`. -/
def collapseNonAlnum : List Char → List Char
  | [] => []
  | c :: rest =>
    if isLowerAlnum c then c :: collapseNonAlnum rest
    else '-' :: collapseNonAlnum (rest.dropWhile (fun d => !isLowerAlnum d))
termination_by l => l.length
decreasing_by
  · simp
  · simp only [List.length_cons]
    exact Nat.lt_succ_of_le (List.dropWhile_sublist (fun d => !isLowerAlnum d)).length_le

/-- Model of Go `strings.Trim` with cutset `"-"`. -/
def trimHyphens (l : List Char) : List Char :=
  ((l.dropWhile (fun c => c = '-')).reverse.dropWhile (fun c => c = '-')).reverse

/-- `kebabCase` (`newmigration.go` lines 119-127). -/
def kebabCase (s : String) : String :=
  String.mk (trimHyphens (collapseNonAlnum (lowerStr (trimSpace s)).data))

/-- The integer lead of a file name as scanned by `CreateMigration`
(`newmigration.go` lines 74-88): first dot segment of the base name, when
there are at least two segments and it parses. -/
def leadNumOf (file : String) : Option Int :=
  match splitStr '.' (baseOf file) with
  | p0 :: _ :: _ => atoi p0
  | _ => none

/-- The running-maximum loop of `CreateMigration` over the globbed files. -/
def nextMax : List String → Int → Int
  | [], acc => acc
  | f :: rest, acc =>
    match leadNumOf f with
    | none => nextMax rest acc
    | some n => nextMax rest (if n > acc then n else acc)

/-- Sprintf `%03d` for the non-negative values produced here. -/
def pad3 (n : Int) : String :=
  String.mk (List.replicate (3 - (toString n).length) '0') ++ toString n

/-- Model of Go `filepath.Dir` for the patterns in scope. -/
def dirOf (s : String) : String :=
  match (splitStr '/' s).dropLast with
  | [] => "."
  | parts => joinWith "/" parts

/-- Model of Go `filepath.Join` of a directory and a file name. -/
def joinPath (dir file : String) : String := dir ++ "/" ++ file

/-- `CreateMigration` (`newmigration.go` lines 59-116), as the list of
(path, content) files it writes; `now` stands for the Unix clock read in
timestamp mode and `files` for the glob result. -/
def createMigrationPlan (cfg : Config) (files : List String) (description mode : String)
    (now : Int) : List (String × String) :=
  let migFolder := dirOf cfg.MigrationPattern
  let nextNumber :=
    if lowerStr mode = "timestamp" then toString now else pad3 (nextMax files 0 + 1)
  let kebabDesc := kebabCase description
  [ (joinPath migFolder (nextNumber ++ ".do." ++ kebabDesc ++ ".sql"),
      "-- Write your migration SQL here\n"),
    (joinPath migFolder (nextNumber ++ ".undo." ++ kebabDesc ++ ".sql"),
      "-- Write your rollback SQL here\n") ]

/-- A concrete configuration used when instantiating statements on explicit
inputs. -/
def testConfig : Config :=
  { Driver := "sqlite3", Database := "", SchemaTable := "schemaversion"
    MigrationPattern := "migrations/*.sql", Newline := "", CurrentSchema := ""
    ValidateChecksums := true }

theorem normTo_lf_idem (l : List Char) :
    normTo ['\n'] (normTo ['\n'] l) = normTo ['\n'] l := by
  induction l using normTo.induct (t := ['\n']) with
  | _ => simp_all [normTo]

theorem normTo_crlf_idem (l : List Char) :
    normTo ['\r', '\n'] (normTo ['\r', '\n'] l) = normTo ['\r', '\n'] l := by
  induction l using normTo.induct (t := ['\r', '\n']) with
  | _ => simp_all [normTo]

theorem normTo_cr_no_lf (l : List Char) : '\n' ∉ normTo ['\r'] l := by
  induction l using normTo.induct (t := ['\r']) with
  | _ => simp_all [normTo, eq_comm]

theorem normTo_cr_step (X : List Char) (h : '\n' ∉ X) :
    normTo ['\r'] ('\r' :: X) = '\r' :: normTo ['\r'] X := by
  cases X with
  | nil => simp [normTo]
  | cons x xs =>
    have hx : x ≠ '\n' := fun hx => h (hx ▸ List.mem_cons_self _ _)
    simp_all [normTo]

theorem normTo_cr_idem (l : List Char) :
    normTo ['\r'] (normTo ['\r'] l) = normTo ['\r'] l := by
  induction l using normTo.induct (t := ['\r']) with
  | case1 => simp [normTo]
  | case2 rest ih =>
    simp only [normTo, List.singleton_append]
    rw [normTo_cr_step _ (normTo_cr_no_lf rest), ih]
  | case3 rest h ih =>
    simp only [normTo, List.singleton_append]
    rw [normTo_cr_step _ (normTo_cr_no_lf rest), ih]
  | case4 rest ih =>
    simp only [normTo, List.singleton_append]
    rw [normTo_cr_step _ (normTo_cr_no_lf rest), ih]
  | case5 c rest h1 h2 h3 ih =>
    simp_all [normTo]

/-- C10: for each valid newline mode, line-ending normalization is
idempotent — converting a second time returns the input unchanged — and the
checksum of the already-normalized content equals the checksum of the
original content. -/
theorem convertLineEnding_idempotent (md5Hex : String → String) (content mode : String)
    (h : mode = "LF" ∨ mode = "CR" ∨ mode = "CRLF") :
    ∃u : String, convertLineEnding content mode = .ok u ∧
      convertLineEnding u mode = .ok u ∧
      checksum md5Hex u mode = checksum md5Hex content mode := by
  rcases h with h | h | h <;> subst h
  · exact ⟨_, rfl, by simp [convertLineEnding, lineEndingTarget, normTo_lf_idem],
      by simp [checksum, convertLineEnding, lineEndingTarget, normTo_lf_idem]⟩
  · exact ⟨_, rfl, by simp [convertLineEnding, lineEndingTarget, normTo_cr_idem],
      by simp [checksum, convertLineEnding, lineEndingTarget, normTo_cr_idem]⟩
  · exact ⟨_, rfl, by simp [convertLineEnding, lineEndingTarget, normTo_crlf_idem],
      by simp [checksum, convertLineEnding, lineEndingTarget, normTo_crlf_idem]⟩

theorem convertLineEnding_idempotent_witness :
    ("CRLF" = "LF" ∨ "CRLF" = "CR" ∨ "CRLF" = "CRLF") ∧
    ∃u : String, convertLineEnding "a\rb\nc\r\nd" "CRLF" = .ok u ∧
      convertLineEnding u "CRLF" = .ok u ∧
      checksum (fun s => s) u "CRLF" = checksum (fun s => s) "a\rb\nc\r\nd" "CRLF" :=
  ⟨Or.inr (Or.inr rfl),
   convertLineEnding_idempotent (fun s => s) "a\rb\nc\r\nd" "CRLF" (Or.inr (Or.inr rfl))⟩

/-- C3: the defaults merge in NewGostgrator replaces a false
ValidateChecksums with the default true, so every engine built by the
public constructor has checksum validation enabled: a configuration with
checksum validation disabled cannot exist after construction, and Migrate
validates whenever targetVersion is at least the database version. -/
theorem validateChecksums_cannot_be_disabled (cfg : Config) :
    (mergeConfig cfg).ValidateChecksums = true := by
  unfold mergeConfig
  cases h : cfg.ValidateChecksums <;> split <;> simp_all [DefaultConfig]

/-- C5 counterexample: with a tracing client, Migrate on the unparseable
target "bogus" does return the invalid-target error, but the trace shows
EnsureTable already ran — the state table was created or repaired — so the
error is not surfaced before all database work as claimed. -/
theorem migrate_invalid_target_does_db_work :
    migrate traceClient (fun s => s) testConfig [] "bogus" [] =
      (([], some "invalid target version: bogus"), ["ensureTable"]) := by
  rfl

/-- C5 amended: an unparseable target spec makes Migrate fail with the
invalid-target error, applying no migration and issuing no version query,
checksum query or script — the final client state is exactly the state
after EnsureTable — but EnsureTable and the migration reload do run first. -/
theorem migrate_invalid_target_after_ensure {σ : Type} (c : Client σ)
    (md5Hex : String → String) (cfg : Config) (files : List (String × String))
    (target : String) (s s1 : σ) (migs : List Migration)
    (hens : c.ensureTable s = (.ok (), s1))
    (hload : getMigrations md5Hex cfg files = .ok migs)
    (hmax : lowerStr (trimSpace target) ≠ "max") (hempty : lowerStr (trimSpace target) ≠ "")
    (hparse : atoi (lowerStr (trimSpace target)) = none) :
    migrate c md5Hex cfg files target s =
      (([], some (invalidTargetErr (lowerStr (trimSpace target)))), s1) := by
  unfold migrate
  rw [hens, hload]
  simp [hmax, hempty, hparse]

theorem migrate_invalid_target_after_ensure_witness :
    traceClient.ensureTable [] = (.ok (), ["ensureTable"]) ∧
    getMigrations (fun s => s) testConfig [] = .ok [] ∧
    lowerStr (trimSpace "nope") ≠ "max" ∧ lowerStr (trimSpace "nope") ≠ "" ∧
    atoi (lowerStr (trimSpace "nope")) = none ∧
    migrate traceClient (fun s => s) testConfig [] "nope" [] =
      (([], some (invalidTargetErr (lowerStr (trimSpace "nope")))), ["ensureTable"]) :=
  ⟨rfl, rfl, by decide, by decide, rfl,
   migrate_invalid_target_after_ensure traceClient (fun s => s) testConfig [] "nope" []
     ["ensureTable"] [] rfl rfl (by decide) (by decide) rfl⟩

theorem sortMigrationsAsc_perm (l : List Migration) : (sortMigrationsAsc l).Perm l :=
  List.mergeSort_perm l _

theorem sortMigrationsDesc_perm (l : List Migration) : (sortMigrationsDesc l).Perm l :=
  List.mergeSort_perm l _

theorem sortMigrationsAsc_sorted (l : List Migration) :
    List.Sorted (fun a b : Migration => a.Version ≤ b.Version) (sortMigrationsAsc l) := by
  have h := @List.sorted_mergeSort Migration (fun a b => decide (a.Version ≤ b.Version))
    (fun a b c hab hbc => by simp only [decide_eq_true_eq] at *; omega)
    (fun a b => by simp only [Bool.or_eq_true, decide_eq_true_eq]; omega) l
  exact h.imp (fun hab => by simpa using hab)

theorem sortMigrationsDesc_sorted (l : List Migration) :
    List.Sorted (fun a b : Migration => b.Version ≤ a.Version) (sortMigrationsDesc l) := by
  have h := @List.sorted_mergeSort Migration (fun a b => decide (b.Version ≤ a.Version))
    (fun a b c hab hbc => by simp only [decide_eq_true_eq] at *; omega)
    (fun a b => by simp only [Bool.or_eq_true, decide_eq_true_eq]; omega) l
  exact h.imp (fun hab => by simpa using hab)

/-- C1: for a target above the database version, GetRunnableMigrations is
exactly the "do" migrations with databaseVersion < version ≤ targetVersion
in ascending version order; for a target below, exactly the "undo"
migrations with targetVersion < version ≤ databaseVersion in descending
order; for an equal target, the empty list (the Go error is nil on every
path, so the embedding returns only the list). -/
theorem getRunnableMigrations_spec (migs : List Migration) (db tv : Int) :
    (db < tv →
      (getRunnableMigrations migs db tv).Perm
        (migs.filter (fun m => m.Action == "do" && decide (m.Version > db) &&
          decide (m.Version ≤ tv))) ∧
      List.Sorted (fun a b : Migration => a.Version ≤ b.Version)
        (getRunnableMigrations migs db tv)) ∧
    (tv < db →
      (getRunnableMigrations migs db tv).Perm
        (migs.filter (fun m => m.Action == "undo" && decide (m.Version ≤ db) &&
          decide (m.Version > tv))) ∧
      List.Sorted (fun a b : Migration => b.Version ≤ a.Version)
        (getRunnableMigrations migs db tv)) ∧
    (tv = db → getRunnableMigrations migs db tv = []) := by
  refine ⟨fun h => ?_, fun h => ?_, fun h => ?_⟩
  · rw [getRunnableMigrations, if_pos h]
    exact ⟨sortMigrationsAsc_perm _, sortMigrationsAsc_sorted _⟩
  · rw [getRunnableMigrations, if_neg (by omega), if_pos h]
    exact ⟨sortMigrationsDesc_perm _, sortMigrationsDesc_sorted _⟩
  · rw [getRunnableMigrations, if_neg (by omega), if_neg (by omega)]

theorem getRunnableMigrations_spec_witness :
    (0 : Int) < 2 ∧
      ((getRunnableMigrations
          [⟨1, "do", "f1", "", "h"⟩, ⟨2, "undo", "f2", "", "h"⟩, ⟨2, "do", "f3", "", "h"⟩] 0 2).Perm
        (([⟨1, "do", "f1", "", "h"⟩, ⟨2, "undo", "f2", "", "h"⟩,
            ⟨2, "do", "f3", "", "h"⟩] : List Migration).filter
          (fun m => m.Action == "do" && decide (m.Version > 0) && decide (m.Version ≤ 2))) ∧
       List.Sorted (fun a b : Migration => a.Version ≤ b.Version)
        (getRunnableMigrations
          [⟨1, "do", "f1", "", "h"⟩, ⟨2, "undo", "f2", "", "h"⟩, ⟨2, "do", "f3", "", "h"⟩] 0 2)) :=
  ⟨by decide, (getRunnableMigrations_spec _ 0 2).1 (by decide)⟩

theorem hasColumn_append (a b : List String) (n : String) :
    hasColumn (a ++ b) n = (hasColumn a n || hasColumn b n) := by
  simp [hasColumn, List.any_append]

theorem exec_adds (s : DbState) (t : VersionTable) (h : s.table = some t) (b1 b2 b3 : Bool) :
    (List.foldl execStmt s
        ((if b1 then ([] : List Stmt) else [Stmt.addName]) ++
         (if b2 then ([] : List Stmt) else [Stmt.addMd5]) ++
         (if b3 then ([] : List Stmt) else [Stmt.addRunAt]))).table =
      some { cols := t.cols ++ (if b1 then [] else ["name"]) ++
               (if b2 then [] else ["md5"]) ++ (if b3 then [] else ["run_at"])
             rows := t.rows } := by
  cases b1 <;> cases b2 <;> cases b3 <;> simp [execStmt, execStmt.addCol, h]

/-- C8: EnsureTable is idempotent over the modelled database: after one run
the introspected column set is nonempty and contains name, md5 and run_at,
so a second run computes an empty statement list — it creates no table and
issues no duplicate ALTER TABLE ADD COLUMN — and leaves the database state,
including the table rows, exactly unchanged. -/
theorem ensureTable_idempotent (cfg : Config) (s : DbState) :
    ensureTableStmts cfg (introspectColumns (ensureTableRun cfg s)) = [] ∧
    ensureTableRun cfg (ensureTableRun cfg s) = ensureTableRun cfg s := by
  have key : ensureTableStmts cfg (introspectColumns (ensureTableRun cfg s)) = [] := by
    rw [ensureTableRun]
    cases htab : s.table with
    | none =>
      have hcols : introspectColumns s = [] := by simp [introspectColumns, htab]
      rw [hcols]
      by_cases hdot : lowerStr cfg.Driver = "pg" ∧ 1 < (splitStr '.' cfg.SchemaTable).length <;>
        simp [ensureTableStmts, hdot, hasColumn, execStmt, execStmt.addCol, introspectColumns,
          lowerStr]
    | some t =>
      have hcols : introspectColumns s = t.cols := by simp [introspectColumns, htab]
      rw [hcols]
      cases hnil : t.cols with
      | nil =>
        by_cases hdot : lowerStr cfg.Driver = "pg" ∧ 1 < (splitStr '.' cfg.SchemaTable).length <;>
          simp [ensureTableStmts, hdot, hasColumn, execStmt, execStmt.addCol, introspectColumns,
            lowerStr]
      | cons c0 cs =>
        rw [← hnil]
        have hne : t.cols.isEmpty = false := by rw [hnil]; rfl
        have hstmts : ensureTableStmts cfg t.cols =
            (if hasColumn t.cols "name" then [] else [Stmt.addName]) ++
            (if hasColumn t.cols "md5" then [] else [Stmt.addMd5]) ++
            (if hasColumn t.cols "run_at" then [] else [Stmt.addRunAt]) := by
          simp [ensureTableStmts, hne]
        rw [hstmts]
        have hfold := exec_adds s t htab (hasColumn t.cols "name")
          (hasColumn t.cols "md5") (hasColumn t.cols "run_at")
        rw [introspectColumns, hfold]
        have hn : hasColumn (t.cols ++ (if hasColumn t.cols "name" then [] else ["name"]) ++
            (if hasColumn t.cols "md5" then [] else ["md5"]) ++
            (if hasColumn t.cols "run_at" then [] else ["run_at"])) "name" = true := by
          by_cases h1 : hasColumn t.cols "name" <;>
            simp [hasColumn_append, h1] <;> simp [hasColumn]
        have hm : hasColumn (t.cols ++ (if hasColumn t.cols "name" then [] else ["name"]) ++
            (if hasColumn t.cols "md5" then [] else ["md5"]) ++
            (if hasColumn t.cols "run_at" then [] else ["run_at"])) "md5" = true := by
          by_cases h2 : hasColumn t.cols "md5" <;>
            simp [hasColumn_append, h2] <;> simp [hasColumn]
        have hr : hasColumn (t.cols ++ (if hasColumn t.cols "name" then [] else ["name"]) ++
            (if hasColumn t.cols "md5" then [] else ["md5"]) ++
            (if hasColumn t.cols "run_at" then [] else ["run_at"])) "run_at" = true := by
          by_cases h3 : hasColumn t.cols "run_at" <;>
            simp [hasColumn_append, h3] <;> simp [hasColumn]
        have hne2 : (t.cols ++ (if hasColumn t.cols "name" then [] else ["name"]) ++
            (if hasColumn t.cols "md5" then [] else ["md5"]) ++
            (if hasColumn t.cols "run_at" then [] else ["run_at"])).isEmpty = false := by
          rw [hnil]; simp
        simp only [ensureTableStmts, hne2, hn, hm, hr, Bool.false_eq_true, if_false, if_true]
        simp
  exact ⟨key, by rw [ensureTableRun, key]; rfl⟩

/-- C2: RunMigrations executes the list strictly in order, three steps per
migration (read the SQL, run the script, run the persist query); the applied
list it returns is exactly the longest fully-successful head of the input,
the error is none exactly when everything succeeded, and on failure the
error is the one produced by the first failing step of the first failing
migration, run from the state the successful head reached. -/
theorem runMigrations_partial_failure {σ : Type} (c : Client σ)
    (files : List (String × String)) (migs : List Migration) (s : σ) :
    (runMigrations c files migs s).1 = (okRun c files migs s).1 ∧
    ((runMigrations c files migs s).2.2 = none ↔ (okRun c files migs s).1 = migs) ∧
    (∀ e, (runMigrations c files migs s).2.2 = some e →
      ∃ m rest, migs.drop (okRun c files migs s).1.length = m :: rest ∧
        stepMigration c files m (okRun c files migs s).2 = .error e) := by
  induction migs generalizing s with
  | nil => simp [runMigrations, okRun]
  | cons m rest ih =>
    cases hsql : getSQL files m with
    | error e =>
      have hstep : stepMigration c files m s = .error e := by
        simp only [stepMigration, hsql]
      simp only [runMigrations, okRun, hsql, hstep]
      refine ⟨by simp, by simp, ?_⟩
      intro e0 he0
      simp at he0
      subst he0
      exact ⟨m, rest, by simp, by simp [hstep]⟩
    | ok script =>
      cases hscr : c.runSqlScript script s with
      | mk r1 s1 =>
        cases r1 with
        | error e =>
          have hstep : stepMigration c files m s = .error e := by
            simp only [stepMigration, hsql, hscr]
          simp only [runMigrations, okRun, hsql, hscr, hstep]
          refine ⟨by simp, by simp, ?_⟩
          intro e0 he0
          simp at he0
          subst he0
          exact ⟨m, rest, by simp, by simp [hstep]⟩
        | ok u1 =>
          cases hq : c.runQuery (c.persistActionSql m) s1 with
          | mk r2 s2 =>
            cases r2 with
            | error e =>
              have hstep : stepMigration c files m s = .error e := by
                simp only [stepMigration, hsql, hscr, hq]
              simp only [runMigrations, okRun, hsql, hscr, hq, hstep]
              refine ⟨by simp, by simp, ?_⟩
              intro e0 he0
              simp at he0
              subst he0
              exact ⟨m, rest, by simp, by simp [hstep]⟩
            | ok u2 =>
              have hstep : stepMigration c files m s = .ok s2 := by
                simp only [stepMigration, hsql, hscr, hq]
              simp only [runMigrations, okRun, hsql, hscr, hq, hstep]
              obtain ⟨ih1, ih2, ih3⟩ := ih s2
              cases hrun : runMigrations c files rest s2 with
              | mk ra rb =>
                cases hok : okRun c files rest s2 with
                | mk pa pb =>
                  rw [hrun, hok] at ih1 ih2 ih3
                  refine ⟨by simpa using ih1, by simpa using ih2, ?_⟩
                  intro e0 he0
                  obtain ⟨m0, rest0, hdrop, hstep0⟩ := ih3 e0 (by simpa using he0)
                  exact ⟨m0, rest0, by simpa using hdrop, hstep0⟩

theorem runMigrations_partial_failure_witness :
    (runMigrations (pureQueryClient (fun _ => []) (fun _ => ""))
        [("f1", "sql1")] [⟨1, "do", "f1", "", "h"⟩, ⟨2, "do", "missing", "", "h"⟩] ()).1 =
      (okRun (pureQueryClient (fun _ => []) (fun _ => ""))
        [("f1", "sql1")] [⟨1, "do", "f1", "", "h"⟩, ⟨2, "do", "missing", "", "h"⟩] ()).1 ∧
    ((runMigrations (pureQueryClient (fun _ => []) (fun _ => ""))
        [("f1", "sql1")] [⟨1, "do", "f1", "", "h"⟩, ⟨2, "do", "missing", "", "h"⟩] ()).2.2 = none ↔
      (okRun (pureQueryClient (fun _ => []) (fun _ => ""))
        [("f1", "sql1")] [⟨1, "do", "f1", "", "h"⟩, ⟨2, "do", "missing", "", "h"⟩] ()).1 =
        [⟨1, "do", "f1", "", "h"⟩, ⟨2, "do", "missing", "", "h"⟩]) ∧
    (∀ e, (runMigrations (pureQueryClient (fun _ => []) (fun _ => ""))
        [("f1", "sql1")] [⟨1, "do", "f1", "", "h"⟩, ⟨2, "do", "missing", "", "h"⟩] ()).2.2 = some e →
      ∃ m rest, ([⟨1, "do", "f1", "", "h"⟩, ⟨2, "do", "missing", "", "h"⟩] : List Migration).drop
          (okRun (pureQueryClient (fun _ => []) (fun _ => ""))
            [("f1", "sql1")] [⟨1, "do", "f1", "", "h"⟩, ⟨2, "do", "missing", "", "h"⟩] ()).1.length =
          m :: rest ∧
        stepMigration (pureQueryClient (fun _ => []) (fun _ => "")) [("f1", "sql1")] m
          (okRun (pureQueryClient (fun _ => []) (fun _ => ""))
            [("f1", "sql1")] [⟨1, "do", "f1", "", "h"⟩, ⟨2, "do", "missing", "", "h"⟩] ()).2 =
          .error e) :=
  runMigrations_partial_failure (pureQueryClient (fun _ => []) (fun _ => ""))
    [("f1", "sql1")] [⟨1, "do", "f1", "", "h"⟩, ⟨2, "do", "missing", "", "h"⟩] ()

/-- C4 counterexample: the loader never inspects the action segment, so the
file "1.foo.sql", whose second dot-segment is neither "do" nor "undo", is
not skipped: it is loaded as a migration whose action is "foo". -/
theorem getMigrations_loads_foreign_action :
    getMigrations (fun s => s) testConfig [("1.foo.sql", "x")] =
      .ok [{ Version := 1, Action := "foo", Filename := "1.foo.sql", Name := ""
             Md5 := "x" }] := by
  rfl

theorem checksum_valid (md5Hex : String → String) (content newline : String)
    (hnl : newline = "" ∨ newline = "LF" ∨ newline = "CR" ∨ newline = "CRLF") :
    checksum md5Hex content newline = .ok (md5Hex (normalizeContent content newline)) := by
  rcases hnl with h | h | h | h <;> subst h <;> rfl

theorem getMigrationsAux_ok (md5Hex : String → String) (newline : String)
    (hnl : newline = "" ∨ newline = "LF" ∨ newline = "CR" ∨ newline = "CRLF")
    (files : List (String × String)) :
    ∀ (seen : List (Int × String)),
      (∀ k ∈ files.filterMap fileKey, k ∉ seen) →
      (files.filterMap fileKey).Nodup →
      getMigrationsAux md5Hex newline seen files =
        .ok (files.filterMap (fun fc => (parseMigrationFile fc.1).map (fun t =>
          { Version := t.1, Action := t.2.1, Filename := fc.1, Name := t.2.2
            Md5 := md5Hex (normalizeContent fc.2 newline) }))) := by
  induction files with
  | nil => intro seen _ _; rfl
  | cons fc rest ih =>
    intro seen hdisj hnd
    obtain ⟨file, content⟩ := fc
    cases hp : parseMigrationFile file with
    | none =>
      have hk : fileKey (file, content) = none := by simp [fileKey, hp]
      have hkeys : ((file, content) :: rest).filterMap fileKey = rest.filterMap fileKey := by
        simp [List.filterMap_cons, hk]
      rw [hkeys] at hdisj hnd
      have hih := ih seen hdisj hnd
      simp [getMigrationsAux, hp, hih, List.filterMap_cons]
    | some t =>
      obtain ⟨v, a, nm⟩ := t
      have hk : fileKey (file, content) = some (v, a) := by simp [fileKey, hp]
      have hkeys : ((file, content) :: rest).filterMap fileKey =
          (v, a) :: rest.filterMap fileKey := by
        simp [List.filterMap_cons, hk]
      rw [hkeys] at hdisj hnd
      have hnotseen : (v, a) ∉ seen := hdisj (v, a) (List.mem_cons_self _ _)
      have hnotrest : (v, a) ∉ rest.filterMap fileKey := (List.nodup_cons.mp hnd).1
      have hih := ih ((v, a) :: seen)
        (fun k hkmem hcon => by
          rcases List.mem_cons.mp hcon with hkeq | hkseen
          · exact hnotrest (hkeq ▸ hkmem)
          · exact hdisj k (List.mem_cons_of_mem _ hkmem) hkseen)
        (List.nodup_cons.mp hnd).2
      simp [getMigrationsAux, hp, checksum_valid md5Hex content newline hnl,
        if_neg hnotseen, hih, List.filterMap_cons]

theorem getMigrationsAux_err (md5Hex : String → String) (newline : String)
    (hnl : newline = "" ∨ newline = "LF" ∨ newline = "CR" ∨ newline = "CRLF")
    (files : List (String × String)) :
    ∀ (seen : List (Int × String)),
      ¬((∀ k ∈ files.filterMap fileKey, k ∉ seen) ∧ (files.filterMap fileKey).Nodup) →
      ∃ v a, getMigrationsAux md5Hex newline seen files = .error (dupErr v a) ∧
        (((v, a) ∈ seen ∧ (v, a) ∈ files.filterMap fileKey) ∨
          2 ≤ (files.filterMap fileKey).count (v, a)) := by
  induction files with
  | nil =>
    intro seen hbad
    exact absurd ⟨fun k hk => absurd hk (by simp), by simp⟩ hbad
  | cons fc rest ih =>
    intro seen hbad
    obtain ⟨file, content⟩ := fc
    cases hp : parseMigrationFile file with
    | none =>
      have hk : fileKey (file, content) = none := by simp [fileKey, hp]
      have hkeys : ((file, content) :: rest).filterMap fileKey = rest.filterMap fileKey := by
        simp [List.filterMap_cons, hk]
      rw [hkeys] at hbad ⊢
      obtain ⟨v, a, herr, hc⟩ := ih seen hbad
      exact ⟨v, a, by simp only [getMigrationsAux, hp]; exact herr, hc⟩
    | some t =>
      obtain ⟨v, a, nm⟩ := t
      have hk : fileKey (file, content) = some (v, a) := by simp [fileKey, hp]
      have hkeys : ((file, content) :: rest).filterMap fileKey =
          (v, a) :: rest.filterMap fileKey := by
        simp [List.filterMap_cons, hk]
      by_cases hseen : (v, a) ∈ seen
      · refine ⟨v, a, ?_, Or.inl ⟨hseen, by rw [hkeys]; exact List.mem_cons_self _ _⟩⟩
        simp only [getMigrationsAux, hp, checksum_valid md5Hex content newline hnl,
          if_pos hseen]
      · by_cases hmem : (v, a) ∈ rest.filterMap fileKey
        · obtain ⟨v1, a1, herr, hc⟩ := ih ((v, a) :: seen)
            (fun hg => hg.1 (v, a) hmem (List.mem_cons_self _ _))
          refine ⟨v1, a1, ?_, ?_⟩
          · simp only [getMigrationsAux, hp, checksum_valid md5Hex content newline hnl,
              if_neg hseen, herr]
          · rcases hc with ⟨hin, hrest⟩ | hcount
            · rcases List.mem_cons.mp hin with heq | hin2
              · refine Or.inr ?_
                rw [hkeys, heq, List.count_cons_self]
                have hpos : 0 < (rest.filterMap fileKey).count (v, a) :=
                  List.count_pos_iff.mpr hmem
                omega
              · exact Or.inl ⟨hin2, by rw [hkeys]; exact List.mem_cons_of_mem _ hrest⟩
            · refine Or.inr ?_
              rw [hkeys, List.count_cons]
              split <;> omega
        · have hihbad : ¬((∀ k ∈ rest.filterMap fileKey, k ∉ (v, a) :: seen) ∧
              (rest.filterMap fileKey).Nodup) := by
            rintro ⟨hall, hnd⟩
            apply hbad
            refine ⟨?_, ?_⟩
            · intro k hkmem
              rw [hkeys] at hkmem
              rcases List.mem_cons.mp hkmem with heq | hmem2
              · exact heq ▸ hseen
              · intro hcon
                exact hall k hmem2 (List.mem_cons_of_mem _ hcon)
            · rw [hkeys]
              exact List.nodup_cons.mpr ⟨hmem, hnd⟩
          obtain ⟨v1, a1, herr, hc⟩ := ih ((v, a) :: seen) hihbad
          refine ⟨v1, a1, ?_, ?_⟩
          · simp only [getMigrationsAux, hp, checksum_valid md5Hex content newline hnl,
              if_neg hseen, herr]
          · rcases hc with ⟨hin, hrest⟩ | hcount
            · rcases List.mem_cons.mp hin with heq | hin2
              · exact absurd (heq ▸ hrest) hmem
              · exact Or.inl ⟨hin2, by rw [hkeys]; exact List.mem_cons_of_mem _ hrest⟩
            · refine Or.inr ?_
              rw [hkeys, List.count_cons]
              split <;> omega

/-- C7: when two scanned files map to the same (version, action) pair, the
loader fails with the duplicate-migration error naming a version and action
that indeed occur at least twice, and returns no migration list. -/
theorem getMigrations_duplicate_error (md5Hex : String → String) (cfg : Config)
    (files : List (String × String))
    (hnl : cfg.Newline = "" ∨ cfg.Newline = "LF" ∨ cfg.Newline = "CR" ∨
      cfg.Newline = "CRLF")
    (hdup : ¬(files.filterMap fileKey).Nodup) :
    ∃ v a, getMigrations md5Hex cfg files = .error (dupErr v a) ∧
      2 ≤ (files.filterMap fileKey).count (v, a) := by
  obtain ⟨v, a, herr, hc⟩ := getMigrationsAux_err md5Hex cfg.Newline hnl files []
    (fun hg => hdup hg.2)
  refine ⟨v, a, herr, ?_⟩
  rcases hc with ⟨hin, _⟩ | hcount
  · exact absurd hin (List.not_mem_nil _)
  · exact hcount

theorem getMigrations_duplicate_error_witness :
    (testConfig.Newline = "" ∨ testConfig.Newline = "LF" ∨ testConfig.Newline = "CR" ∨
      testConfig.Newline = "CRLF") ∧
    ¬([("1.do.sql", "x"), ("01.do.y.sql", "z")].filterMap fileKey).Nodup ∧
    ∃ v a, getMigrations (fun s => s) testConfig [("1.do.sql", "x"), ("01.do.y.sql", "z")] =
        .error (dupErr v a) ∧
      2 ≤ ([("1.do.sql", "x"), ("01.do.y.sql", "z")].filterMap fileKey).count (v, a) :=
  ⟨Or.inl rfl, by decide,
   getMigrations_duplicate_error (fun s => s) testConfig
     [("1.do.sql", "x"), ("01.do.y.sql", "z")] (Or.inl rfl) (by decide)⟩

/-- C4 amended: a glob candidate with the ".sql" extension becomes a loaded
migration exactly when its base name has at least two dot-segments and the
first parses via Atoi (which accepts a sign, so negative versions load as
well); the second dot-segment is recorded verbatim as the action with no
do/undo restriction, and the remaining segments rejoined with '.' become
the name.  Under a valid newline mode and pairwise-distinct (version,
action) keys, the loader returns exactly these per-file parses, in order. -/
theorem getMigrations_loads_parsed_files (md5Hex : String → String) (cfg : Config)
    (files : List (String × String))
    (hnl : cfg.Newline = "" ∨ cfg.Newline = "LF" ∨ cfg.Newline = "CR" ∨
      cfg.Newline = "CRLF")
    (hnodup : (files.filterMap fileKey).Nodup) :
    getMigrations md5Hex cfg files = .ok (files.filterMap (migOfEntry md5Hex cfg)) := by
  have h := getMigrationsAux_ok md5Hex cfg.Newline hnl files []
    (fun k _ => List.not_mem_nil k) hnodup
  exact h

theorem getMigrations_loads_parsed_files_witness :
    (testConfig.Newline = "" ∨ testConfig.Newline = "LF" ∨ testConfig.Newline = "CR" ∨
      testConfig.Newline = "CRLF") ∧
    ([("1.foo.sql", "x"), ("2.do.add.users.sql", "y")].filterMap fileKey).Nodup ∧
    getMigrations (fun s => s) testConfig [("1.foo.sql", "x"), ("2.do.add.users.sql", "y")] =
      .ok ([("1.foo.sql", "x"), ("2.do.add.users.sql", "y")].filterMap
        (migOfEntry (fun s => s) testConfig)) :=
  ⟨Or.inl rfl, by decide,
   getMigrations_loads_parsed_files (fun s => s) testConfig
     [("1.foo.sql", "x"), ("2.do.add.users.sql", "y")] (Or.inl rfl) (by decide)⟩

theorem validateLoop_spec (fetch : String → List Row) (md5SqlOf : Migration → String)
    (stored : Int → Option String) (dbv : Int) :
    ∀ (migs : List Migration),
      (∀ m ∈ migs, rowsMd5 (fetch (md5SqlOf m)) = .ok (stored m.Version)) →
      (∀ m ∈ migs, m.Md5 ≠ "") →
      (((validateLoop (pureQueryClient fetch md5SqlOf) dbv migs ()).1 = .ok () ↔
        ∀ m ∈ migs, m.Action = "do" → 0 < m.Version → m.Version ≤ dbv →
          ∀ x, stored m.Version = some x → x = m.Md5) ∧
      (∀ e, (validateLoop (pureQueryClient fetch md5SqlOf) dbv migs ()).1 = .error e →
        ∃ m ∈ migs, m.Action = "do" ∧ 0 < m.Version ∧ m.Version ≤ dbv ∧
          ∃ x, stored m.Version = some x ∧ x ≠ m.Md5 ∧ e = md5Err m.Version)) := by
  intro migs
  induction migs with
  | nil =>
    intro _ _
    constructor
    · simp [validateLoop]
    · intro e he
      simp [validateLoop] at he
  | cons m rest ih =>
    intro hrow hmd5
    have hrowm := hrow m (List.mem_cons_self _ _)
    have hmd5m := hmd5 m (List.mem_cons_self _ _)
    obtain ⟨ih1, ih2⟩ := ih (fun k hk => hrow k (List.mem_cons_of_mem _ hk))
      (fun k hk => hmd5 k (List.mem_cons_of_mem _ hk))
    by_cases hcond : (m.Action == "do" && decide (m.Version > 0) &&
        decide (m.Version ≤ dbv)) = true
    · have hsplit := hcond
      simp only [Bool.and_eq_true, beq_iff_eq, decide_eq_true_eq] at hsplit
      obtain ⟨⟨hA, h0⟩, hd⟩ := hsplit
      cases hfq : fetch (md5SqlOf m) with
      | nil =>
        have hstored : stored m.Version = none := by
          have h := hrowm
          rw [hfq] at h
          simpa [rowsMd5] using h.symm
        have hstep : validateLoop (pureQueryClient fetch md5SqlOf) dbv (m :: rest) () =
            validateLoop (pureQueryClient fetch md5SqlOf) dbv rest () := by
          simp only [validateLoop, if_pos hcond, pureQueryClient, hfq]
        rw [hstep]
        constructor
        · rw [ih1, List.forall_mem_cons]
          constructor
          · intro hr
            exact ⟨(fun _ _ _ x hx => by rw [hstored] at hx; cases hx), hr⟩
          · intro h
            exact h.2
        · intro e he
          obtain ⟨m1, hm1, hbody⟩ := ih2 e he
          exact ⟨m1, List.mem_cons_of_mem _ hm1, hbody⟩
      | cons r rs =>
        have hscan : r.scanNullString = .ok (stored m.Version) := by
          have h := hrowm
          rw [hfq] at h
          simpa [rowsMd5] using h
        cases hst : stored m.Version with
        | none =>
          have hstep : validateLoop (pureQueryClient fetch md5SqlOf) dbv (m :: rest) () =
              validateLoop (pureQueryClient fetch md5SqlOf) dbv rest () := by
            rw [hst] at hscan
            simp only [validateLoop, if_pos hcond, pureQueryClient, hfq, hscan]
          rw [hstep]
          constructor
          · rw [ih1, List.forall_mem_cons]
            constructor
            · intro hr
              exact ⟨(fun _ _ _ x hx => by rw [hst] at hx; cases hx), hr⟩
            · intro h
              exact h.2
          · intro e he
            obtain ⟨m1, hm1, hbody⟩ := ih2 e he
            exact ⟨m1, List.mem_cons_of_mem _ hm1, hbody⟩
        | some xv =>
          rw [hst] at hscan
          by_cases hx : xv = m.Md5
          · have hstep : validateLoop (pureQueryClient fetch md5SqlOf) dbv (m :: rest) () =
                validateLoop (pureQueryClient fetch md5SqlOf) dbv rest () := by
              simp only [validateLoop, if_pos hcond, pureQueryClient, hfq, hscan]
              rw [if_neg (by simp [hx])]
            rw [hstep]
            constructor
            · rw [ih1, List.forall_mem_cons]
              constructor
              · intro hr
                refine ⟨fun _ _ _ x hx2 => ?_, hr⟩
                rw [hst] at hx2
                cases hx2
                exact hx
              · intro h
                exact h.2
            · intro e he
              obtain ⟨m1, hm1, hbody⟩ := ih2 e he
              exact ⟨m1, List.mem_cons_of_mem _ hm1, hbody⟩
          · have hstep : validateLoop (pureQueryClient fetch md5SqlOf) dbv (m :: rest) () =
                (.error (md5Err m.Version), ()) := by
              simp only [validateLoop, if_pos hcond, pureQueryClient, hfq, hscan]
              rw [if_pos ⟨hmd5m, fun hcc => hx hcc⟩]
              rfl
            rw [hstep]
            constructor
            · constructor
              · intro habs
                cases habs
              · intro hall
                exact absurd ((List.forall_mem_cons.mp hall).1 hA h0 hd xv hst) hx
            · intro e he
              have heq : md5Err m.Version = e := by
                simpa using he
              exact ⟨m, List.mem_cons_self _ _, hA, h0, hd, xv, hst, hx, heq.symm⟩
    · have hstep : validateLoop (pureQueryClient fetch md5SqlOf) dbv (m :: rest) () =
          validateLoop (pureQueryClient fetch md5SqlOf) dbv rest () := by
        simp only [validateLoop, if_neg hcond]
      have hnotall : ¬(m.Action = "do" ∧ 0 < m.Version ∧ m.Version ≤ dbv) := by
        rintro ⟨h1, h2, h3⟩
        exact hcond (by simp [h1, h2, h3])
      rw [hstep]
      constructor
      · rw [ih1, List.forall_mem_cons]
        constructor
        · intro hr
          exact ⟨fun h1 h2 h3 => absurd ⟨h1, h2, h3⟩ hnotall, hr⟩
        · intro h
          exact h.2
      · intro e he
        obtain ⟨m1, hm1, hbody⟩ := ih2 e he
        exact ⟨m1, List.mem_cons_of_mem _ hm1, hbody⟩

/-- C6: over a client whose md5 queries are pure reads answering with the
persisted checksum lookup, ValidateMigrations checks exactly the loaded
"do" migrations with 0 < version ≤ databaseVersion: it succeeds precisely
when every such migration whose stored checksum exists matches the file
checksum byte for byte, a NULL or absent stored checksum never being an
error; and any error it returns is the mismatch error naming the version of
a checked migration whose stored checksum exists and differs. -/
theorem validateMigrations_mismatch_iff (fetch : String → List Row)
    (md5SqlOf : Migration → String) (md5Hex : String → String) (cfg : Config)
    (files : List (String × String)) (stored : Int → Option String)
    (migs : List Migration) (dbv : Int)
    (hload : getMigrations md5Hex cfg files = .ok migs)
    (hrow : ∀ m ∈ migs, rowsMd5 (fetch (md5SqlOf m)) = .ok (stored m.Version))
    (hmd5 : ∀ m ∈ migs, m.Md5 ≠ "") :
    (((validateMigrations (pureQueryClient fetch md5SqlOf) md5Hex cfg files dbv ()).1 =
        .ok () ↔
      ∀ m ∈ migs, m.Action = "do" → 0 < m.Version → m.Version ≤ dbv →
        ∀ x, stored m.Version = some x → x = m.Md5) ∧
    (∀ e, (validateMigrations (pureQueryClient fetch md5SqlOf) md5Hex cfg files dbv ()).1 =
        .error e →
      ∃ m ∈ migs, m.Action = "do" ∧ 0 < m.Version ∧ m.Version ≤ dbv ∧
        ∃ x, stored m.Version = some x ∧ x ≠ m.Md5 ∧ e = md5Err m.Version)) := by
  have hval : validateMigrations (pureQueryClient fetch md5SqlOf) md5Hex cfg files dbv () =
      validateLoop (pureQueryClient fetch md5SqlOf) dbv migs () := by
    simp only [validateMigrations, hload]
  rw [hval]
  exact validateLoop_spec fetch md5SqlOf stored dbv migs hrow hmd5

theorem validateMigrations_mismatch_iff_witness :
    getMigrations (fun s => s) testConfig [("1.do.sql", "h")] =
      .ok [⟨1, "do", "1.do.sql", "", "h"⟩] ∧
    (∀ m ∈ ([⟨1, "do", "1.do.sql", "", "h"⟩] : List Migration),
      rowsMd5 ((fun _ => ([] : List Row)) ((fun _ => "q") m)) =
        .ok ((fun _ => (none : Option String)) m.Version)) ∧
    (∀ m ∈ ([⟨1, "do", "1.do.sql", "", "h"⟩] : List Migration), m.Md5 ≠ "") ∧
    (((validateMigrations (pureQueryClient (fun _ => []) (fun _ => "q")) (fun s => s)
        testConfig [("1.do.sql", "h")] 1 ()).1 = .ok () ↔
      ∀ m ∈ ([⟨1, "do", "1.do.sql", "", "h"⟩] : List Migration),
        m.Action = "do" → 0 < m.Version → m.Version ≤ 1 →
          ∀ x, (fun _ => (none : Option String)) m.Version = some x → x = m.Md5) ∧
    (∀ e, (validateMigrations (pureQueryClient (fun _ => []) (fun _ => "q")) (fun s => s)
        testConfig [("1.do.sql", "h")] 1 ()).1 = .error e →
      ∃ m ∈ ([⟨1, "do", "1.do.sql", "", "h"⟩] : List Migration),
        m.Action = "do" ∧ 0 < m.Version ∧ m.Version ≤ 1 ∧
          ∃ x, (fun _ => (none : Option String)) m.Version = some x ∧ x ≠ m.Md5 ∧
            e = md5Err m.Version)) :=
  ⟨rfl, by decide, by decide,
   validateMigrations_mismatch_iff (fun _ => []) (fun _ => "q") (fun s => s) testConfig
     [("1.do.sql", "h")] (fun _ => none) [⟨1, "do", "1.do.sql", "", "h"⟩] 1
     rfl (by decide) (by decide)⟩

theorem nextMax_eq (files : List String) : ∀ acc : Int,
    nextMax files acc = (files.filterMap leadNumOf).foldl (fun a n => max a n) acc := by
  induction files with
  | nil => intro acc; rfl
  | cons f rest ih =>
    intro acc
    cases hl : leadNumOf f with
    | none => simp [nextMax, hl, List.filterMap_cons, ih]
    | some n =>
      have hmax : (if n > acc then n else acc) = max acc n := by
        by_cases h : n > acc
        · rw [if_pos h, max_eq_right (le_of_lt h)]
        · rw [if_neg h, max_eq_left (le_of_not_lt h)]
      simp [nextMax, hl, List.filterMap_cons, ih, hmax]

theorem dropWhile_head_false (p : Char → Bool) : ∀ (l : List Char) (c : Char)
    (cs : List Char), l.dropWhile p = c :: cs → p c = false := by
  intro l
  induction l with
  | nil => intro c cs h; cases h
  | cons x xs ih =>
    intro c cs h
    rw [List.dropWhile_cons] at h
    by_cases hp : p x
    · rw [if_pos hp] at h
      exact ih c cs h
    · rw [if_neg hp] at h
      cases h
      exact Bool.eq_false_iff.mpr hp

theorem collapse_mem : ∀ (l : List Char) (c : Char), c ∈ collapseNonAlnum l →
    isLowerAlnum c = true ∨ c = '-' := by
  intro l
  induction l using collapseNonAlnum.induct with
  | case1 =>
    intro c h
    simp [collapseNonAlnum] at h
  | case2 c rest hal ih =>
    intro c0 h
    simp only [collapseNonAlnum, if_pos hal] at h
    rcases List.mem_cons.mp h with rfl | h2
    · exact Or.inl hal
    · exact ih _ h2
  | case3 c rest hal ih =>
    intro c0 h
    simp only [collapseNonAlnum, if_neg hal] at h
    rcases List.mem_cons.mp h with rfl | h2
    · exact Or.inr rfl
    · exact ih _ h2

theorem collapse_drop_head (rest : List Char) (c : Char) (cs : List Char)
    (h : collapseNonAlnum (rest.dropWhile (fun d => !isLowerAlnum d)) = c :: cs) :
    isLowerAlnum c = true := by
  cases hd : rest.dropWhile (fun d => !isLowerAlnum d) with
  | nil =>
    rw [hd] at h
    simp [collapseNonAlnum] at h
  | cons x xs =>
    have hx : (!isLowerAlnum x) = false := dropWhile_head_false _ rest x xs hd
    have hx2 : isLowerAlnum x = true := by simpa using hx
    rw [hd] at h
    simp only [collapseNonAlnum, if_pos hx2] at h
    injection h with h1 h2
    rw [← h1]
    exact hx2

theorem collapse_chain : ∀ l : List Char,
    List.Chain' (fun a b => ¬(a = '-' ∧ b = '-')) (collapseNonAlnum l) := by
  intro l
  induction l using collapseNonAlnum.induct with
  | case1 => simp [collapseNonAlnum]
  | case2 c rest hal ih =>
    simp only [collapseNonAlnum, if_pos hal]
    rw [List.chain'_cons']
    refine ⟨?_, ih⟩
    rintro y hy ⟨hc, hy2⟩
    rw [hc] at hal
    exact absurd hal (by decide)
  | case3 c rest hal ih =>
    simp only [collapseNonAlnum, if_neg hal]
    rw [List.chain'_cons']
    refine ⟨?_, ih⟩
    rintro y hy ⟨hc, hy2⟩
    cases hcol : collapseNonAlnum (rest.dropWhile (fun d => !isLowerAlnum d)) with
    | nil =>
      rw [hcol] at hy
      cases hy
    | cons z zs =>
      rw [hcol] at hy
      simp only [List.head?_cons, Option.mem_def, Option.some.injEq] at hy
      have hz := collapse_drop_head rest z zs hcol
      rw [hy, hy2] at hz
      exact absurd hz (by decide)

theorem trimHyphens_prefix_drop (l : List Char) :
    trimHyphens l <+: l.dropWhile (fun c => c = '-') := by
  unfold trimHyphens
  have h3 : ((l.dropWhile (fun c => c = '-')).reverse.dropWhile (fun c => c = '-')) <:+
      (l.dropWhile (fun c => c = '-')).reverse := List.dropWhile_suffix _
  have h4 := List.reverse_prefix.mpr h3
  rwa [List.reverse_reverse] at h4

theorem trimHyphensIsInfix (l : List Char) : trimHyphens l <:+: l :=
  (trimHyphens_prefix_drop l).isInfix.trans (List.dropWhile_suffix _).isInfix

theorem trimHyphens_head (l : List Char) (c : Char) (cs : List Char)
    (h : trimHyphens l = c :: cs) : ¬ c = '-' := by
  obtain ⟨t, ht⟩ := trimHyphens_prefix_drop l
  rw [h] at ht
  have hdw : l.dropWhile (fun c => c = '-') = c :: (cs ++ t) := by
    rw [← ht]
    rfl
  have hp := dropWhile_head_false _ l c (cs ++ t) hdw
  simpa using hp

theorem trimHyphens_last (l : List Char) (c : Char) (cs : List Char)
    (h : (trimHyphens l).reverse = c :: cs) : ¬ c = '-' := by
  have hrev : (trimHyphens l).reverse =
      ((l.dropWhile (fun c => c = '-')).reverse).dropWhile (fun c => c = '-') := by
    unfold trimHyphens
    rw [List.reverse_reverse]
  rw [hrev] at h
  have hp := dropWhile_head_false _ _ c cs h
  simpa using hp

/-- C9: in "int" mode CreateMigration writes exactly the do/undo file pair
whose version is one plus the maximum integer lead among the globbed files,
zero-padded to three digits, and in "timestamp" mode the pair whose version
is the current Unix time; each file carries its one-line placeholder
comment.  The slug of the description used in both names contains only
lower-case alphanumerics and hyphens, never two adjacent hyphens, and
neither starts nor ends with a hyphen. -/
theorem createMigration_spec (cfg : Config) (files : List String)
    (description : String) (now : Int) :
    createMigrationPlan cfg files description "int" now =
      [ (joinPath (dirOf cfg.MigrationPattern)
          (pad3 ((files.filterMap leadNumOf).foldl (fun a n => max a n) 0 + 1) ++
            ".do." ++ kebabCase description ++ ".sql"),
         "-- Write your migration SQL here\n"),
        (joinPath (dirOf cfg.MigrationPattern)
          (pad3 ((files.filterMap leadNumOf).foldl (fun a n => max a n) 0 + 1) ++
            ".undo." ++ kebabCase description ++ ".sql"),
         "-- Write your rollback SQL here\n") ] ∧
    createMigrationPlan cfg files description "timestamp" now =
      [ (joinPath (dirOf cfg.MigrationPattern)
          (toString now ++ ".do." ++ kebabCase description ++ ".sql"),
         "-- Write your migration SQL here\n"),
        (joinPath (dirOf cfg.MigrationPattern)
          (toString now ++ ".undo." ++ kebabCase description ++ ".sql"),
         "-- Write your rollback SQL here\n") ] ∧
    (∀ c ∈ (kebabCase description).data, isLowerAlnum c = true ∨ c = '-') ∧
    List.Chain' (fun a b => ¬(a = '-' ∧ b = '-')) (kebabCase description).data ∧
    (∀ c cs, (kebabCase description).data = c :: cs → ¬ c = '-') ∧
    (∀ c cs, (kebabCase description).data.reverse = c :: cs → ¬ c = '-') := by
  have hk : (kebabCase description).data =
      trimHyphens (collapseNonAlnum (lowerStr (trimSpace description)).data) := rfl
  refine ⟨?_, ?_, ?_, ?_, ?_, ?_⟩
  · simp only [createMigrationPlan]
    rw [if_neg (by decide), nextMax_eq]
  · simp only [createMigrationPlan]
    rw [if_pos (by decide)]
  · intro c hc
    rw [hk] at hc
    exact collapse_mem _ c ((trimHyphensIsInfix _).subset hc)
  · rw [hk]
    exact List.Chain'.infix (collapse_chain _) (trimHyphensIsInfix _)
  · intro c cs h
    rw [hk] at h
    exact trimHyphens_head _ c cs h
  · intro c cs h
    rw [hk] at h
    exact trimHyphens_last _ c cs h

theorem createMigration_spec_witness :
    createMigrationPlan testConfig ["migrations/007.do.a.sql"] "Add New Table" "int" 42 =
      [ (joinPath (dirOf testConfig.MigrationPattern)
          (pad3 ((["migrations/007.do.a.sql"].filterMap leadNumOf).foldl
              (fun a n => max a n) 0 + 1) ++
            ".do." ++ kebabCase "Add New Table" ++ ".sql"),
         "-- Write your migration SQL here\n"),
        (joinPath (dirOf testConfig.MigrationPattern)
          (pad3 ((["migrations/007.do.a.sql"].filterMap leadNumOf).foldl
              (fun a n => max a n) 0 + 1) ++
            ".undo." ++ kebabCase "Add New Table" ++ ".sql"),
         "-- Write your rollback SQL here\n") ] ∧
    createMigrationPlan testConfig ["migrations/007.do.a.sql"] "Add New Table" "timestamp" 42 =
      [ (joinPath (dirOf testConfig.MigrationPattern)
          (toString (42 : Int) ++ ".do." ++ kebabCase "Add New Table" ++ ".sql"),
         "-- Write your migration SQL here\n"),
        (joinPath (dirOf testConfig.MigrationPattern)
          (toString (42 : Int) ++ ".undo." ++ kebabCase "Add New Table" ++ ".sql"),
         "-- Write your rollback SQL here\n") ] ∧
    (∀ c ∈ (kebabCase "Add New Table").data, isLowerAlnum c = true ∨ c = '-') ∧
    List.Chain' (fun a b => ¬(a = '-' ∧ b = '-')) (kebabCase "Add New Table").data ∧
    (∀ c cs, (kebabCase "Add New Table").data = c :: cs → ¬ c = '-') ∧
    (∀ c cs, (kebabCase "Add New Table").data.reverse = c :: cs → ¬ c = '-') :=
  createMigration_spec testConfig ["migrations/007.do.a.sql"] "Add New Table" 42

end Gostgrator
